import Mathlib

/-!
Shallow embedding of the `fat-ptr` repository: the generic fat-pointer
type `Fat<T, M>` with its `Meta` encode/decode trait (src/lib.rs), and the
matrix example built on top of it (examples/matrix.rs): the half-word
integer `Halfsize`, the packed pair `Pair<Halfsize>`, the owning `Matrix`
and the borrowed view `Mat`.

Modelling conventions:
- The build targets `target_pointer_width = "64"`, so a native word
  (`usize`) is 64 bits and `Halfsize` wraps a `u32`.  Machine integers are
  `Nat` with explicit `% 2 ^ 64` where overflow matters.
- Raw pointers are element-indexed addresses (`Nat`); `ptr.add k` is
  `ptr + k`.  Memory is a function `Nat → T`; a contiguous borrowed
  buffer is a `Buffer` (starting address plus the list of its elements),
  and `Buffer.readMem` is the memory it induces.
- A Rust `panic!` / failed `assert!` / `expect` is modelled as `none`
  (or `Except.error` carrying the panic message); `unreachable_unchecked`
  arms are modelled as an arbitrary default that the development proves
  is never taken.
-/

namespace FatPtr

/-- Bit width of a native word (`usize`) on the 64-bit target. -/
def usizeBits : Nat := 64

/-- Bit width of a half word (`u32` on the 64-bit target). -/
def halfBits : Nat := 32

/-- Number of values of `usize`: `2 ^ 64`. -/
def usizeSize : Nat := 2 ^ usizeBits

/-- Number of values of a half word: `2 ^ 32`. -/
def halfSize : Nat := 2 ^ halfBits

/-- `struct Halfsize(u32)`: an integer half the width of a `usize`. -/
structure Halfsize where
  val : Nat
  isLt : val < halfSize

instance : DecidableEq Halfsize := fun a b =>
  if h : a.val = b.val then isTrue (by cases a; cases b; simp_all)
  else isFalse (fun e => h (congrArg Halfsize.val e))

/-- `impl From<Halfsize> for usize`: the widening conversion.  The `Err`
arm of the inner `try_into` is `unreachable_unchecked` because a
`Halfsize` always fits in a `usize`; the conversion is just the value. -/
def usizeFrom (h : Halfsize) : Nat := h.val

/-- `impl TryFrom<usize> for Halfsize`: narrowing conversion, fails when
the value exceeds the half-word range. -/
def Halfsize.tryFrom (n : Nat) : Option Halfsize :=
  if h : n < halfSize then some ⟨n, h⟩ else none

/-- `usize::checked_mul`: multiplication returning `None` on overflow of
the 64-bit native word. -/
def checked_mul (a b : Nat) : Option Nat :=
  if a * b < usizeSize then some (a * b) else none

/-- `impl Mul for Halfsize`: widen both operands and `checked_mul` them.
The source treats the `None` arm as `unreachable_unchecked`; here the
checked result is kept so that unreachability can be proved. -/
def Halfsize.mul (a b : Halfsize) : Option Nat :=
  checked_mul (usizeFrom a) (usizeFrom b)

/-- `struct Pair<T>(T, T)`: two values with a guaranteed (`repr(C)`)
memory layout, `fst` first. -/
structure Pair (α : Type) where
  fst : α
  snd : α
deriving DecidableEq

/-- `trait Meta`: a value that can act as the metadata of a fat pointer,
convertible to and from a pointer-width word. -/
class Meta (M : Type) where
  into_bytes : M → Nat
  from_bytes : Nat → M

/-- `impl Meta for Pair<Halfsize>`: the `repr(C)` pair transmuted to and
from a `usize`.  On the little-endian 64-bit target the first half word
occupies the low 32 bits and the second the high 32 bits. -/
instance : Meta (Pair Halfsize) where
  into_bytes p := usizeFrom p.fst + usizeFrom p.snd * halfSize
  from_bytes n :=
    ⟨⟨n % halfSize, Nat.mod_lt _ (by norm_num [halfSize])⟩,
     ⟨n / halfSize % halfSize, Nat.mod_lt _ (by norm_num [halfSize])⟩⟩

/-- A contiguous borrowed slice `&[T]`: the raw address of its first
element together with the elements it exposes. -/
structure Buffer (T : Type) where
  addr : Nat
  data : List T

/-- The memory induced by a buffer, with default `dflt` outside it:
address `addr + k` holds the buffer's `k`-th element. -/
def Buffer.readMem {T : Type} (dflt : T) (buf : Buffer T) : Nat → T :=
  fun x => if buf.addr ≤ x then buf.data.getD (x - buf.addr) dflt else dflt

/-- `struct Fat<T, M>`: a fat pointer to values of `T` carrying metadata
`M`.  Its representation is a `[()]` slice reference, i.e. exactly two
words: the data address (`ptr` field of the slice) and the metadata word
(stored in the slice's `len` field). -/
structure Fat (T : Type) (M : Type) where
  dataAddr : Nat
  metaBits : Nat

/-- `Fat::ptr`: returns the stored address unchanged. -/
def Fat.ptr {T M : Type} (f : Fat T M) : Nat := f.dataAddr

/-- `Fat::mut_ptr`: returns the stored address unchanged. -/
def Fat.mut_ptr {T M : Type} (f : Fat T M) : Nat := f.dataAddr

/-- `Fat::meta`: reads back the stored word and decodes it with
`Meta::from_bytes`. -/
def Fat.meta {T M : Type} [Meta M] (f : Fat T M) : M :=
  Meta.from_bytes f.metaBits

/-- `Fat::from_slice`: encodes the metadata into a word with
`Meta::into_bytes` and stores (buffer address, that word). -/
def Fat.from_slice {T M : Type} [Meta M] (data : Buffer T) (m : M) :
    Fat T M :=
  ⟨data.addr, Meta.into_bytes m⟩

/-- `Fat::from_slice_mut`: same two fields as `from_slice`, built from a
mutable slice. -/
def Fat.from_slice_mut {T M : Type} [Meta M] (data : Buffer T) (m : M) :
    Fat T M :=
  ⟨data.addr, Meta.into_bytes m⟩

/-- `struct Mat<T>(Fat<T, Pair<Halfsize>>)`: a `repr(transparent)`
renaming of the fat pointer whose metadata is the packed dimension
pair. -/
abbrev Mat (T : Type) := Fat T (Pair Halfsize)

/-- `Mat::rows`: decode the packed pair and widen its first half. -/
def Mat.rows {T : Type} (m : Mat T) : Nat := usizeFrom (Fat.meta m).fst

/-- `Mat::cols`: decode the packed pair and widen its second half. -/
def Mat.cols {T : Type} (m : Mat T) : Nat := usizeFrom (Fat.meta m).snd

/-- `Mat::dim`: the decoded dimensions, both widened to `usize`. -/
def Mat.dim {T : Type} (m : Mat T) : Pair Nat :=
  Pair.mk (usizeFrom (Fat.meta m).fst) (usizeFrom (Fat.meta m).snd)

/-- `impl Index<[usize; 2]> for Mat<T>`: asserts `i < rows` and
`j < cols` (a failed assert panics, modelled `none`), then reads memory
at `ptr.add(i * cols + j)`. -/
def Mat.index {T : Type} (mem : Nat → T) (m : Mat T) (ij : Nat × Nat) :
    Option T :=
  let d := Mat.dim m
  if ij.1 < d.fst then
    if ij.2 < d.snd then
      some (mem (Fat.ptr m + (ij.1 * d.snd + ij.2)))
    else none
  else none

/-- `impl IndexMut<[usize; 2]> for Mat<T>`: same bounds checks, then
returns the place `mut_ptr.add(i * cols + j)` (a `&mut T` is the address
of the element it designates). -/
def Mat.index_mut {T : Type} (m : Mat T) (ij : Nat × Nat) : Option Nat :=
  let d := Mat.dim m
  if ij.1 < d.fst then
    if ij.2 < d.snd then
      some (Fat.mut_ptr m + (ij.1 * d.snd + ij.2))
    else none
  else none

/-- Writing `v` through an address: the store underlying an indexed
assignment `mat[[i, j]] = v`. -/
def store {T : Type} (mem : Nat → T) (a : Nat) (v : T) : Nat → T :=
  fun x => if x = a then v else mem x

/-- The indexed assignment `mat[[i, j]] = v`: on an in-bounds index it
stores through the place returned by `index_mut`; an out-of-bounds index
panics before any write, leaving memory unchanged. -/
def Mat.write {T : Type} (mem : Nat → T) (m : Mat T) (ij : Nat × Nat)
    (v : T) : Nat → T :=
  match Mat.index_mut m ij with
  | some a => store mem a v
  | none => mem

/-- `struct Matrix<T>`: an owned matrix: element buffer plus the two
dimensions stored as half words. -/
structure Matrix (T : Type) where
  items : List T
  rows : Halfsize
  cols : Halfsize

/-- `Matrix::new(rows, cols)`: allocates `rows * cols` default elements
(the `usize` product wraps modulo `2 ^ 64` as in release builds), then
narrows each dimension, panicking (`expect`, modelled `Except.error`)
when one exceeds the half-word range. -/
def Matrix.new {T : Type} (dflt : T) (rows cols : Nat) :
    Except String (Matrix T) :=
  let items : List T := List.replicate (rows * cols % usizeSize) dflt
  match Halfsize.tryFrom rows with
  | some r =>
    match Halfsize.tryFrom cols with
    | some c => .ok { items := items, rows := r, cols := c }
    | none => .error "`cols` must fit in half a usize"
  | none => .error "`rows` must fit in half a usize"

/-- The element buffer that `Matrix::new` builds (matrix.rs line 80)
before either `try_into` range check runs: this allocation happens even
when the constructor goes on to raise a range error, and is then
discarded during the panic unwind. -/
def Matrix.newAllocation {T : Type} (dflt : T) (rows cols : Nat) :
    List T :=
  List.replicate (rows * cols % usizeSize) dflt

/-- The buffer-length invariant of `Matrix`: the item buffer holds
exactly `rows * cols` elements. -/
def Matrix.wf {T : Type} (mx : Matrix T) : Prop :=
  mx.items.length = usizeFrom mx.rows * usizeFrom mx.cols

/-- `impl Deref for Matrix<T>`: builds a fat pointer over the item
buffer with metadata `Pair(rows, cols)`; `addr` is where the buffer
lives. -/
def Matrix.deref {T : Type} (addr : Nat) (mx : Matrix T) : Mat T :=
  Fat.from_slice ⟨addr, mx.items⟩ (Pair.mk mx.rows mx.cols)

/-- `impl DerefMut for Matrix<T>`: same fat pointer, built with
`from_slice_mut`. -/
def Matrix.deref_mut {T : Type} (addr : Nat) (mx : Matrix T) : Mat T :=
  Fat.from_slice_mut ⟨addr, mx.items⟩ (Pair.mk mx.rows mx.cols)

/-- `impl ToOwned for Mat<T>`: copies the `rows * cols` elements the fat
pointer references into a fresh buffer and wraps it in a new `Matrix`.
`rows * cols` is the half-word multiplication, whose `None` arm is
unreachable in the source; the `0` default stands for that arm and is
proved never to be used. -/
def Mat.to_owned {T : Type} (mem : Nat → T) (m : Mat T) : Matrix T :=
  { items :=
      (List.range
          ((Halfsize.mul (Fat.meta m).fst (Fat.meta m).snd).getD 0)).map
        (fun k => mem (Fat.ptr m + k)),
    rows := (Fat.meta m).fst,
    cols := (Fat.meta m).snd }

/-- The spec's shared indexing contract, stated on the owning side: the
element at linear position `i * cols + j` of the matrix's buffer. -/
def Matrix.elemAt {T : Type} (dflt : T) (mx : Matrix T) (i j : Nat) : T :=
  mx.items.getD (i * usizeFrom mx.cols + j) dflt

/-- Sample half-word value 2, used by concrete witnesses. -/
def hs2 : Halfsize := ⟨2, by norm_num [halfSize, halfBits]⟩

/-- Sample half-word value 3, used by concrete witnesses. -/
def hs3 : Halfsize := ⟨3, by norm_num [halfSize, halfBits]⟩

/-- Sample half-word value 5, used by concrete witnesses. -/
def hs5 : Halfsize := ⟨5, by norm_num [halfSize, halfBits]⟩

/-- Sample half-word value 7, used by concrete witnesses. -/
def hs7 : Halfsize := ⟨7, by norm_num [halfSize, halfBits]⟩

/-- A sample three-element buffer at address 100. -/
def sampleBuf : Buffer Nat := ⟨100, [10, 11, 12]⟩

/-- A sample 2-by-3 matrix with items 10..15. -/
def sampleMatrix : Matrix Nat := ⟨[10, 11, 12, 13, 14, 15], hs2, hs3⟩

theorem halfSize_pos : 0 < halfSize := by norm_num [halfSize]

theorem halfSize_mul_halfSize : halfSize * halfSize = usizeSize := by
  norm_num [halfSize, usizeSize, usizeBits, halfBits]

theorem Halfsize.val_inj {a b : Halfsize} (h : a.val = b.val) : a = b := by
  cases a; cases b; simp_all

theorem Halfsize.widen_mul_lt (a b : Halfsize) :
    usizeFrom a * usizeFrom b < usizeSize := by
  have := Nat.mul_lt_mul'' a.isLt b.isLt
  simpa [usizeFrom, halfSize_mul_halfSize] using this

theorem Halfsize.mul_eq_some (a b : Halfsize) :
    Halfsize.mul a b = some (usizeFrom a * usizeFrom b) := by
  simp [Halfsize.mul, checked_mul, Halfsize.widen_mul_lt a b]

theorem pair_from_into (a b : Halfsize) :
    (Meta.from_bytes (Meta.into_bytes (Pair.mk a b)) : Pair Halfsize)
      = Pair.mk a b := by
  have ha := a.isLt
  have hmod : (usizeFrom a + usizeFrom b * halfSize) % halfSize = a.val := by
    simpa [usizeFrom] using Nat.mod_eq_of_lt ha
  have hdiv : (usizeFrom a + usizeFrom b * halfSize) / halfSize % halfSize
      = b.val := by
    rw [Nat.add_mul_div_right _ _ halfSize_pos]
    simp only [usizeFrom]
    rw [Nat.div_eq_of_lt ha]
    simpa using Nat.mod_eq_of_lt b.isLt
  show Pair.mk ⟨_, _⟩ ⟨_, _⟩ = Pair.mk a b
  congr 1
  · exact Halfsize.val_inj hmod
  · exact Halfsize.val_inj hdiv

theorem offset_lt {rows cols i j : Nat} (hi : i < rows) (hj : j < cols) :
    i * cols + j < rows * cols := by
  calc i * cols + j < i * cols + cols := by omega
    _ = (i + 1) * cols := by ring
    _ ≤ rows * cols := Nat.mul_le_mul_right _ (Nat.succ_le_of_lt hi)

theorem offset_inj {cols i j i' j' : Nat} (hj : j < cols) (hj' : j' < cols)
    (h : i * cols + j = i' * cols + j') : i = i' ∧ j = j' := by
  have hc : 0 < cols := Nat.lt_of_le_of_lt (Nat.zero_le _) hj
  have hdiv := congrArg (fun x => x / cols) h
  have hmod := congrArg (fun x => x % cols) h
  simp only [Nat.mul_comm _ cols] at hdiv hmod
  rw [Nat.mul_add_div hc, Nat.mul_add_div hc] at hdiv
  rw [Nat.mul_add_mod, Nat.mul_add_mod] at hmod
  rw [Nat.div_eq_of_lt hj, Nat.div_eq_of_lt hj'] at hdiv
  rw [Nat.mod_eq_of_lt hj, Nat.mod_eq_of_lt hj'] at hmod
  omega

theorem Matrix.meta_deref {T : Type} (addr : Nat) (mx : Matrix T) :
    Fat.meta (Matrix.deref addr mx) = Pair.mk mx.rows mx.cols := by
  simpa [Matrix.deref, Fat.from_slice, Fat.meta] using
    pair_from_into mx.rows mx.cols

theorem Matrix.meta_deref_mut {T : Type} (addr : Nat) (mx : Matrix T) :
    Fat.meta (Matrix.deref_mut addr mx) = Pair.mk mx.rows mx.cols := by
  simpa [Matrix.deref_mut, Fat.from_slice_mut, Fat.meta] using
    pair_from_into mx.rows mx.cols

theorem Matrix.dim_deref {T : Type} (addr : Nat) (mx : Matrix T) :
    Mat.dim (Matrix.deref addr mx)
      = Pair.mk (usizeFrom mx.rows) (usizeFrom mx.cols) := by
  rw [Mat.dim, Matrix.meta_deref]

theorem Matrix.dim_deref_mut {T : Type} (addr : Nat) (mx : Matrix T) :
    Mat.dim (Matrix.deref_mut addr mx)
      = Pair.mk (usizeFrom mx.rows) (usizeFrom mx.cols) := by
  rw [Mat.dim, Matrix.meta_deref_mut]

theorem Buffer.readMem_add {T : Type} (dflt : T) (addr k : Nat)
    (l : List T) :
    Buffer.readMem dflt ⟨addr, l⟩ (addr + k) = l.getD k dflt := by
  simp [Buffer.readMem]

theorem Matrix.deref_index_in_bounds {T : Type} (dflt : T)
    (mx : Matrix T) (addr i j : Nat) (hi : i < usizeFrom mx.rows)
    (hj : j < usizeFrom mx.cols) :
    Mat.index (Buffer.readMem dflt ⟨addr, mx.items⟩)
        (Matrix.deref addr mx) (i, j)
      = some (mx.items.getD (i * usizeFrom mx.cols + j) dflt) := by
  rw [Mat.index]
  simp only [Matrix.dim_deref, hi, hj, if_pos]
  rw [show Fat.ptr (Matrix.deref addr mx) = addr from rfl]
  rw [Buffer.readMem_add]

theorem Mat.index_eq_none_iff {T : Type} (mem : Nat → T) (m : Mat T)
    (i j : Nat) :
    Mat.index mem m (i, j) = none
      ↔ (Mat.dim m).fst ≤ i ∨ (Mat.dim m).snd ≤ j := by
  rw [Mat.index]
  by_cases hi : i < (Mat.dim m).fst <;>
    by_cases hj : j < (Mat.dim m).snd <;> simp [hi, hj] <;> omega

theorem Mat.index_mut_eq_none_iff {T : Type} (m : Mat T) (i j : Nat) :
    Mat.index_mut m (i, j) = none
      ↔ (Mat.dim m).fst ≤ i ∨ (Mat.dim m).snd ≤ j := by
  rw [Mat.index_mut]
  by_cases hi : i < (Mat.dim m).fst <;>
    by_cases hj : j < (Mat.dim m).snd <;> simp [hi, hj] <;> omega

theorem Mat.index_mut_in_bounds {T : Type} (m : Mat T) (i j : Nat)
    (hi : i < (Mat.dim m).fst) (hj : j < (Mat.dim m).snd) :
    Mat.index_mut m (i, j)
      = some (Fat.mut_ptr m + (i * (Mat.dim m).snd + j)) := by
  rw [Mat.index_mut]
  simp [hi, hj]

theorem Mat.index_in_bounds {T : Type} (mem : Nat → T) (m : Mat T)
    (i j : Nat) (hi : i < (Mat.dim m).fst) (hj : j < (Mat.dim m).snd) :
    Mat.index mem m (i, j)
      = some (mem (Fat.ptr m + (i * (Mat.dim m).snd + j))) := by
  rw [Mat.index]
  simp [hi, hj]

theorem getD_map_range {α : Type} (f : Nat → α) (n k : Nat) (d : α)
    (hk : k < n) : ((List.range n).map f).getD k d = f k := by
  rw [List.getD_eq_getElem?_getD]
  simp [List.getElem?_map, List.getElem?_range hk]

theorem Mat.to_owned_deref {T : Type} (dflt : T) (mx : Matrix T)
    (addr : Nat) :
    Mat.to_owned (Buffer.readMem dflt ⟨addr, mx.items⟩)
        (Matrix.deref addr mx)
      = { items :=
            (List.range (usizeFrom mx.rows * usizeFrom mx.cols)).map
              (fun k => mx.items.getD k dflt),
          rows := mx.rows, cols := mx.cols } := by
  rw [Mat.to_owned, Matrix.meta_deref]
  simp only [Halfsize.mul_eq_some, Option.getD_some]
  congr 1
  exact List.map_congr_left
    (fun k _ => Buffer.readMem_add dflt addr k mx.items)

theorem Fat.ptr_eq_mut_ptr {T M : Type} (f : Fat T M) :
    Fat.ptr f = Fat.mut_ptr f := rfl

/-- C1: for every buffer and every metadata value `m` of a type
satisfying the encode/decode contract, the handle built by `from_slice`
(or `from_slice_mut`) has `ptr` (resp. `mut_ptr`) exactly the buffer's
starting address, and `meta` returns the stored word decoded, i.e.
`from_bytes (into_bytes m)`, which equals `m` whenever the round-trip
law holds at `m`. -/
theorem fat_from_slice_correct {T M : Type} [Meta M] (buf : Buffer T)
    (m : M) (hrt : (Meta.from_bytes (Meta.into_bytes m) : M) = m) :
    Fat.ptr (Fat.from_slice buf m) = buf.addr
    ∧ Fat.mut_ptr (Fat.from_slice_mut buf m) = buf.addr
    ∧ Fat.meta (Fat.from_slice buf m)
        = (Meta.from_bytes (Meta.into_bytes m) : M)
    ∧ Fat.meta (Fat.from_slice buf m) = m
    ∧ Fat.meta (Fat.from_slice_mut buf m) = m :=
  ⟨rfl, rfl, rfl, hrt, hrt⟩

/-- Witness for C1 at a concrete buffer and a concrete packed pair. -/
theorem fat_from_slice_correct_witness :
    ((Meta.from_bytes (Meta.into_bytes (Pair.mk hs5 hs7)) : Pair Halfsize)
        = Pair.mk hs5 hs7)
    ∧ (Fat.ptr (Fat.from_slice sampleBuf (Pair.mk hs5 hs7))
          = sampleBuf.addr
       ∧ Fat.mut_ptr (Fat.from_slice_mut sampleBuf (Pair.mk hs5 hs7))
          = sampleBuf.addr
       ∧ Fat.meta (Fat.from_slice sampleBuf (Pair.mk hs5 hs7))
          = (Meta.from_bytes (Meta.into_bytes (Pair.mk hs5 hs7))
              : Pair Halfsize)
       ∧ Fat.meta (Fat.from_slice sampleBuf (Pair.mk hs5 hs7))
          = Pair.mk hs5 hs7
       ∧ Fat.meta (Fat.from_slice_mut sampleBuf (Pair.mk hs5 hs7))
          = Pair.mk hs5 hs7) :=
  ⟨pair_from_into hs5 hs7,
   fat_from_slice_correct sampleBuf (Pair.mk hs5 hs7)
     (pair_from_into hs5 hs7)⟩

/-- C2: on a Mat derived from a matrix whose buffer holds exactly
`rows * cols` elements, an in-bounds access uses the linear offset
`i * cols + j`, which is strictly below `rows * cols` and below the
buffer length, so both `index` and `index_mut` stay within the owning
buffer. -/
theorem mat_index_within_buffer {T : Type} (dflt : T) (mx : Matrix T)
    (addr i j : Nat) (hwf : Matrix.wf mx) (hi : i < usizeFrom mx.rows)
    (hj : j < usizeFrom mx.cols) :
    i * usizeFrom mx.cols + j < usizeFrom mx.rows * usizeFrom mx.cols
    ∧ i * usizeFrom mx.cols + j < mx.items.length
    ∧ Mat.index (Buffer.readMem dflt ⟨addr, mx.items⟩)
        (Matrix.deref addr mx) (i, j)
        = some (mx.items.getD (i * usizeFrom mx.cols + j) dflt)
    ∧ Mat.index_mut (Matrix.deref_mut addr mx) (i, j)
        = some (addr + (i * usizeFrom mx.cols + j))
    ∧ addr + (i * usizeFrom mx.cols + j) < addr + mx.items.length := by
  have hoff := offset_lt hi hj
  have hlen : i * usizeFrom mx.cols + j < mx.items.length := by
    rw [Matrix.wf] at hwf; omega
  refine ⟨hoff, hlen,
    Matrix.deref_index_in_bounds dflt mx addr i j hi hj, ?_, by omega⟩
  have hi2 : i < (Mat.dim (Matrix.deref_mut addr mx)).fst := by
    rw [Matrix.dim_deref_mut]; exact hi
  have hj2 : j < (Mat.dim (Matrix.deref_mut addr mx)).snd := by
    rw [Matrix.dim_deref_mut]; exact hj
  rw [Mat.index_mut_in_bounds (Matrix.deref_mut addr mx) i j hi2 hj2,
    Matrix.dim_deref_mut]
  rfl

/-- Witness for C2 at the sample 2-by-3 matrix, index (1, 2). -/
theorem mat_index_within_buffer_witness :
    Matrix.wf sampleMatrix
    ∧ 1 < usizeFrom sampleMatrix.rows
    ∧ 2 < usizeFrom sampleMatrix.cols
    ∧ (1 * usizeFrom sampleMatrix.cols + 2
         < usizeFrom sampleMatrix.rows * usizeFrom sampleMatrix.cols
       ∧ 1 * usizeFrom sampleMatrix.cols + 2 < sampleMatrix.items.length
       ∧ Mat.index (Buffer.readMem 0 ⟨100, sampleMatrix.items⟩)
           (Matrix.deref 100 sampleMatrix) (1, 2)
           = some (sampleMatrix.items.getD
               (1 * usizeFrom sampleMatrix.cols + 2) 0)
       ∧ Mat.index_mut (Matrix.deref_mut 100 sampleMatrix) (1, 2)
           = some (100 + (1 * usizeFrom sampleMatrix.cols + 2))
       ∧ 100 + (1 * usizeFrom sampleMatrix.cols + 2)
           < 100 + sampleMatrix.items.length) :=
  ⟨rfl, by decide, by decide,
   mat_index_within_buffer 0 sampleMatrix 100 1 2 rfl
     (by decide) (by decide)⟩

/-- C3: widening two half-word values and multiplying never overflows a
native word, so the `None` arm of `checked_mul` in `impl Mul for
Halfsize` is unreachable: the checked product is always `some`. -/
theorem halfsize_mul_never_overflows (a b : Halfsize) :
    usizeFrom a * usizeFrom b < usizeSize
    ∧ Halfsize.mul a b = some (usizeFrom a * usizeFrom b) :=
  ⟨Halfsize.widen_mul_lt a b, Halfsize.mul_eq_some a b⟩

/-- C4: the packed-pair metadata encoding round-trips: decoding the
encoded word of any pair of half words gives back the same pair. -/
theorem pair_roundtrip (a b : Halfsize) :
    (Meta.from_bytes (Meta.into_bytes (Pair.mk a b)) : Pair Halfsize)
      = Pair.mk a b :=
  pair_from_into a b

/-- C5: element access on a Mat raises a bounds error exactly when
`i >= rows` or `j >= cols`, for both `index` and `index_mut`; a failing
indexed assignment leaves memory unchanged (no partial effect), and a
succeeding access returns the element at linear offset `i * cols + j`
of the buffer. -/
theorem mat_index_bounds_error_iff {T : Type} (dflt v : T)
    (mx : Matrix T) (addr i j : Nat) :
    (Mat.index (Buffer.readMem dflt ⟨addr, mx.items⟩)
        (Matrix.deref addr mx) (i, j) = none
      ↔ usizeFrom mx.rows ≤ i ∨ usizeFrom mx.cols ≤ j)
    ∧ (Mat.index_mut (Matrix.deref_mut addr mx) (i, j) = none
      ↔ usizeFrom mx.rows ≤ i ∨ usizeFrom mx.cols ≤ j)
    ∧ (i < usizeFrom mx.rows → j < usizeFrom mx.cols →
        Mat.index (Buffer.readMem dflt ⟨addr, mx.items⟩)
            (Matrix.deref addr mx) (i, j)
          = some (mx.items.getD (i * usizeFrom mx.cols + j) dflt))
    ∧ ((usizeFrom mx.rows ≤ i ∨ usizeFrom mx.cols ≤ j) →
        Mat.write (Buffer.readMem dflt ⟨addr, mx.items⟩)
            (Matrix.deref_mut addr mx) (i, j) v
          = Buffer.readMem dflt ⟨addr, mx.items⟩) := by
  refine ⟨?_, ?_, ?_, ?_⟩
  · rw [Mat.index_eq_none_iff, Matrix.dim_deref]
  · rw [Mat.index_mut_eq_none_iff, Matrix.dim_deref_mut]
  · exact fun hi hj => Matrix.deref_index_in_bounds dflt mx addr i j hi hj
  · intro h
    have hnone : Mat.index_mut (Matrix.deref_mut addr mx) (i, j)
        = none := by
      rw [Mat.index_mut_eq_none_iff, Matrix.dim_deref_mut]
      exact h
    simp [Mat.write, hnone]

/-- Witness for C5 at the sample matrix with the out-of-bounds row 5. -/
theorem mat_index_bounds_error_iff_witness :
    (Mat.index (Buffer.readMem 0 ⟨100, sampleMatrix.items⟩)
        (Matrix.deref 100 sampleMatrix) (5, 1) = none
      ↔ usizeFrom sampleMatrix.rows ≤ 5 ∨ usizeFrom sampleMatrix.cols ≤ 1)
    ∧ (Mat.index_mut (Matrix.deref_mut 100 sampleMatrix) (5, 1) = none
      ↔ usizeFrom sampleMatrix.rows ≤ 5 ∨ usizeFrom sampleMatrix.cols ≤ 1)
    ∧ (5 < usizeFrom sampleMatrix.rows → 1 < usizeFrom sampleMatrix.cols →
        Mat.index (Buffer.readMem 0 ⟨100, sampleMatrix.items⟩)
            (Matrix.deref 100 sampleMatrix) (5, 1)
          = some (sampleMatrix.items.getD
              (5 * usizeFrom sampleMatrix.cols + 1) 0))
    ∧ ((usizeFrom sampleMatrix.rows ≤ 5 ∨ usizeFrom sampleMatrix.cols ≤ 1)
        → Mat.write (Buffer.readMem 0 ⟨100, sampleMatrix.items⟩)
            (Matrix.deref_mut 100 sampleMatrix) (5, 1) 99
          = Buffer.readMem 0 ⟨100, sampleMatrix.items⟩) :=
  mat_index_bounds_error_iff 0 99 sampleMatrix 100 5 1

/-- C6 (amended): constructing a matrix with a dimension exceeding the
half-word maximum always raises a range error (the `expect` panic
message), so no matrix is produced; the `rows * cols` element buffer is
nevertheless allocated before the range check (see
`matrix_new_error_allocates`) and discarded with the panic, rather than
never allocated. -/
theorem matrix_new_range_error {T : Type} (dflt : T) (rows cols : Nat)
    (h : halfSize ≤ rows ∨ halfSize ≤ cols) :
    ∃ msg : String, Matrix.new dflt rows cols = Except.error msg := by
  by_cases hr : rows < halfSize
  · have hc : ¬ cols < halfSize := by omega
    exact ⟨"`cols` must fit in half a usize",
      by simp [Matrix.new, Halfsize.tryFrom, hr, hc]⟩
  · exact ⟨"`rows` must fit in half a usize",
      by simp [Matrix.new, Halfsize.tryFrom, hr]⟩

/-- Witness for C6 at `rows = halfSize`, `cols = 3`. -/
theorem matrix_new_range_error_witness :
    (halfSize ≤ halfSize ∨ halfSize ≤ 3)
    ∧ ∃ msg : String,
        Matrix.new (0 : Nat) halfSize 3 = Except.error msg :=
  ⟨Or.inl (Nat.le_refl halfSize),
   matrix_new_range_error 0 halfSize 3 (Or.inl (Nat.le_refl halfSize))⟩

/-- Counterexample for C6 as stated: at `rows = halfSize`, `cols = 1`
(a dimension exceeding the half-word maximum) the constructor does
raise the range error, yet the buffer it builds before the check holds
`halfSize` elements — a nonempty allocation, refuting "allocates no
buffer". -/
theorem matrix_new_error_allocates :
    Matrix.new (0 : Nat) halfSize 1
      = Except.error "`rows` must fit in half a usize"
    ∧ (Matrix.newAllocation (0 : Nat) halfSize 1).length = halfSize
    ∧ 0 < (Matrix.newAllocation (0 : Nat) halfSize 1).length := by
  have hr : ¬ halfSize < halfSize := lt_irrefl _
  refine ⟨?_, ?_, ?_⟩
  · simp [Matrix.new, Halfsize.tryFrom, hr]
  · simp [Matrix.newAllocation]
    norm_num [halfSize, usizeSize, usizeBits, halfBits]
  · simp [Matrix.newAllocation]
    norm_num [halfSize, usizeSize, usizeBits, halfBits]

/-- C7: borrowing a matrix as a Mat preserves the dimensions, and on
every in-bounds pair indexing through the view returns the element at
linear position `i * cols + j` of the matrix's buffer. -/
theorem mat_refines_matrix {T : Type} (dflt : T) (mx : Matrix T)
    (addr i j : Nat) (hi : i < usizeFrom mx.rows)
    (hj : j < usizeFrom mx.cols) :
    Mat.rows (Matrix.deref addr mx) = usizeFrom mx.rows
    ∧ Mat.cols (Matrix.deref addr mx) = usizeFrom mx.cols
    ∧ Mat.index (Buffer.readMem dflt ⟨addr, mx.items⟩)
        (Matrix.deref addr mx) (i, j)
        = some (Matrix.elemAt dflt mx i j) := by
  refine ⟨?_, ?_, ?_⟩
  · rw [Mat.rows, Matrix.meta_deref]
  · rw [Mat.cols, Matrix.meta_deref]
  · rw [Matrix.elemAt]
    exact Matrix.deref_index_in_bounds dflt mx addr i j hi hj

/-- Witness for C7 at the sample matrix, index (1, 2). -/
theorem mat_refines_matrix_witness :
    (1 < usizeFrom sampleMatrix.rows) ∧ (2 < usizeFrom sampleMatrix.cols)
    ∧ Mat.rows (Matrix.deref 100 sampleMatrix)
        = usizeFrom sampleMatrix.rows
    ∧ Mat.cols (Matrix.deref 100 sampleMatrix)
        = usizeFrom sampleMatrix.cols
    ∧ Mat.index (Buffer.readMem 0 ⟨100, sampleMatrix.items⟩)
        (Matrix.deref 100 sampleMatrix) (1, 2)
        = some (Matrix.elemAt 0 sampleMatrix 1 2) := by
  have h := mat_refines_matrix 0 sampleMatrix 100 1 2
    (by decide) (by decide)
  exact ⟨by decide, by decide, h.1, h.2.1, h.2.2⟩

/-- C8: converting a borrowed Mat back to an owned matrix preserves the
dimensions, the buffer-length invariant, and every in-bounds element:
indexing the copy agrees with indexing the original view. -/
theorem mat_to_owned_preserves {T : Type} (dflt : T) (mx : Matrix T)
    (addr addr2 i j : Nat) (hwf : Matrix.wf mx)
    (hi : i < usizeFrom mx.rows) (hj : j < usizeFrom mx.cols) :
    usizeFrom (Mat.to_owned (Buffer.readMem dflt ⟨addr, mx.items⟩)
        (Matrix.deref addr mx)).rows = usizeFrom mx.rows
    ∧ usizeFrom (Mat.to_owned (Buffer.readMem dflt ⟨addr, mx.items⟩)
        (Matrix.deref addr mx)).cols = usizeFrom mx.cols
    ∧ Matrix.wf (Mat.to_owned (Buffer.readMem dflt ⟨addr, mx.items⟩)
        (Matrix.deref addr mx))
    ∧ Mat.index
        (Buffer.readMem dflt
          ⟨addr2, (Mat.to_owned (Buffer.readMem dflt ⟨addr, mx.items⟩)
              (Matrix.deref addr mx)).items⟩)
        (Matrix.deref addr2
          (Mat.to_owned (Buffer.readMem dflt ⟨addr, mx.items⟩)
            (Matrix.deref addr mx))) (i, j)
      = Mat.index (Buffer.readMem dflt ⟨addr, mx.items⟩)
          (Matrix.deref addr mx) (i, j) := by
  rw [Mat.to_owned_deref]
  refine ⟨rfl, rfl, ?_, ?_⟩
  · simp [Matrix.wf, usizeFrom]
  · rw [Matrix.deref_index_in_bounds dflt
      { items :=
          (List.range (usizeFrom mx.rows * usizeFrom mx.cols)).map
            (fun k => mx.items.getD k dflt),
        rows := mx.rows, cols := mx.cols } addr2 i j hi hj]
    rw [Matrix.deref_index_in_bounds dflt mx addr i j hi hj]
    congr 1
    exact getD_map_range _ _ _ _ (offset_lt hi hj)

/-- Witness for C8 at the sample matrix, index (1, 2). -/
theorem mat_to_owned_preserves_witness :
    Matrix.wf sampleMatrix
    ∧ (1 < usizeFrom sampleMatrix.rows)
    ∧ (2 < usizeFrom sampleMatrix.cols)
    ∧ usizeFrom (Mat.to_owned (Buffer.readMem 0 ⟨100, sampleMatrix.items⟩)
        (Matrix.deref 100 sampleMatrix)).rows = usizeFrom sampleMatrix.rows
    ∧ usizeFrom (Mat.to_owned (Buffer.readMem 0 ⟨100, sampleMatrix.items⟩)
        (Matrix.deref 100 sampleMatrix)).cols = usizeFrom sampleMatrix.cols
    ∧ Matrix.wf (Mat.to_owned (Buffer.readMem 0 ⟨100, sampleMatrix.items⟩)
        (Matrix.deref 100 sampleMatrix))
    ∧ Mat.index
        (Buffer.readMem 0
          ⟨200, (Mat.to_owned (Buffer.readMem 0 ⟨100, sampleMatrix.items⟩)
              (Matrix.deref 100 sampleMatrix)).items⟩)
        (Matrix.deref 200
          (Mat.to_owned (Buffer.readMem 0 ⟨100, sampleMatrix.items⟩)
            (Matrix.deref 100 sampleMatrix))) (1, 2)
      = Mat.index (Buffer.readMem 0 ⟨100, sampleMatrix.items⟩)
          (Matrix.deref 100 sampleMatrix) (1, 2) := by
  have h := mat_to_owned_preserves 0 sampleMatrix 100 200 1 2 rfl
    (by decide) (by decide)
  exact ⟨rfl, by decide, by decide, h.1, h.2.1, h.2.2.1, h.2.2.2⟩

/-- C9: after an in-bounds indexed assignment `mat[[i, j]] = v`, reading
`[i, j]` yields `v` and every other in-bounds entry retains the value it
had before the assignment. -/
theorem mat_write_frame {T : Type} (mem : Nat → T) (m : Mat T)
    (i j i' j' : Nat) (v : T)
    (hi : i < (Mat.dim m).fst) (hj : j < (Mat.dim m).snd)
    (hi' : i' < (Mat.dim m).fst) (hj' : j' < (Mat.dim m).snd)
    (hne : ¬ (i' = i ∧ j' = j)) :
    Mat.index (Mat.write mem m (i, j) v) m (i, j) = some v
    ∧ Mat.index (Mat.write mem m (i, j) v) m (i', j')
        = Mat.index mem m (i', j') := by
  have hw : Mat.write mem m (i, j) v
      = store mem (Fat.mut_ptr m + (i * (Mat.dim m).snd + j)) v := by
    simp [Mat.write, Mat.index_mut_in_bounds m i j hi hj]
  constructor
  · rw [Mat.index_in_bounds _ m i j hi hj, hw, Fat.ptr_eq_mut_ptr]
    simp [store]
  · rw [Mat.index_in_bounds _ m i' j' hi' hj',
      Mat.index_in_bounds mem m i' j' hi' hj', hw, Fat.ptr_eq_mut_ptr]
    have hneq : Fat.mut_ptr m + (i' * (Mat.dim m).snd + j')
        ≠ Fat.mut_ptr m + (i * (Mat.dim m).snd + j) := by
      intro he
      have heq : i' * (Mat.dim m).snd + j' = i * (Mat.dim m).snd + j := by
        omega
      exact hne (offset_inj hj' hj heq)
    simp [store, hneq]

/-- Witness for C9: write 99 at (0, 1) of the sample matrix's view and
read back (0, 1) and (1, 1). -/
theorem mat_write_frame_witness :
    (0 < (Mat.dim (Matrix.deref_mut 100 sampleMatrix)).fst)
    ∧ (1 < (Mat.dim (Matrix.deref_mut 100 sampleMatrix)).snd)
    ∧ (1 < (Mat.dim (Matrix.deref_mut 100 sampleMatrix)).fst)
    ∧ ¬ ((1 : Nat) = 0 ∧ (1 : Nat) = 1)
    ∧ Mat.index
        (Mat.write (Buffer.readMem 0 ⟨100, sampleMatrix.items⟩)
          (Matrix.deref_mut 100 sampleMatrix) (0, 1) 99)
        (Matrix.deref_mut 100 sampleMatrix) (0, 1) = some 99
    ∧ Mat.index
        (Mat.write (Buffer.readMem 0 ⟨100, sampleMatrix.items⟩)
          (Matrix.deref_mut 100 sampleMatrix) (0, 1) 99)
        (Matrix.deref_mut 100 sampleMatrix) (1, 1)
      = Mat.index (Buffer.readMem 0 ⟨100, sampleMatrix.items⟩)
          (Matrix.deref_mut 100 sampleMatrix) (1, 1) := by
  have h := mat_write_frame (Buffer.readMem 0 ⟨100, sampleMatrix.items⟩)
    (Matrix.deref_mut 100 sampleMatrix) 0 1 1 1 99
    (by decide) (by decide) (by decide) (by decide) (by decide)
  exact ⟨by decide, by decide, by decide, by decide, h.1, h.2⟩

/-- C10: for dimensions within the half-word range, the constructor
succeeds with a buffer of `rows * cols` default-valued elements, and the
stored dimensions widen back to the originals. -/
theorem matrix_new_in_range {T : Type} (dflt : T) (rows cols : Nat)
    (hr : rows < halfSize) (hc : cols < halfSize) :
    Matrix.new dflt rows cols
      = Except.ok
          { items := List.replicate (rows * cols) dflt,
            rows := ⟨rows, hr⟩, cols := ⟨cols, hc⟩ }
    ∧ (List.replicate (rows * cols) dflt).length = rows * cols
    ∧ usizeFrom (⟨rows, hr⟩ : Halfsize) = rows
    ∧ usizeFrom (⟨cols, hc⟩ : Halfsize) = cols := by
  have hlt : rows * cols < usizeSize := by
    have h := Nat.mul_lt_mul'' hr hc
    rwa [halfSize_mul_halfSize] at h
  refine ⟨?_, by simp, rfl, rfl⟩
  simp [Matrix.new, Halfsize.tryFrom, hr, hc, Nat.mod_eq_of_lt hlt]

/-- Witness for C10 at `rows = 3`, `cols = 4`. -/
theorem matrix_new_in_range_witness :
    (3 < halfSize) ∧ (4 < halfSize)
    ∧ Matrix.new (0 : Nat) 3 4
        = Except.ok
            { items := List.replicate (3 * 4) (0 : Nat),
              rows := ⟨3, by norm_num [halfSize, halfBits]⟩,
              cols := ⟨4, by norm_num [halfSize, halfBits]⟩ }
    ∧ (List.replicate (3 * 4) (0 : Nat)).length = 3 * 4
    ∧ usizeFrom (⟨3, by norm_num [halfSize, halfBits]⟩ : Halfsize) = 3
    ∧ usizeFrom (⟨4, by norm_num [halfSize, halfBits]⟩ : Halfsize) = 4 := by
  have h3 : 3 < halfSize := by norm_num [halfSize, halfBits]
  have h4 : 4 < halfSize := by norm_num [halfSize, halfBits]
  have h := matrix_new_in_range (0 : Nat) 3 4 h3 h4
  exact ⟨h3, h4, h.1, h.2.1, h.2.2.1, h.2.2.2⟩

end FatPtr
